import Mathlib

set_option autoImplicit false

variable {α β γ : Type}

/-!
Verification of the element-wise matrix combinator framework used by the
relational operators `larger` and `smaller`.

The two operator files (`src/function/relational/larger.js` and the
`smaller` twin) are embedded directly.  The combinator algorithms
(algorithm03 / 07 / 12 / 13), the matrix containers and the conversion
functions live outside the shown sources, so they are modelled from the
specification text; each such definition carries a doc comment starting
with `Modelled from the spec:`.

Scalar conventions: JavaScript numbers, BigNumbers and Fractions are all
modelled as exact rationals; the boolean comparison results have `false`
as their canonical zero, and the numeric element kind has `0`.
-/

/-- Absolute value on rationals written with an explicit `if`, used by the
near-equality model. -/
def qabs (x : ℚ) : ℚ := if x < 0 then -x else x

/-- Maximum on rationals written with an explicit `if`, used by the
near-equality model. -/
def qmax (x y : ℚ) : ℚ := if x ≤ y then y else x

/-- Modelled from the spec: the epsilon-tolerant numeric comparison helper
`nearlyEqual` from `utils/number` is not part of the shown sources; the spec
describes it as a relative-epsilon near-equality test.  Two rationals are
nearly equal when they are equal or their distance is at most the relative
epsilon scaled by the larger magnitude. -/
def nearlyEqual (x y eps : ℚ) : Bool :=
  decide (x = y) || decide (qabs (x - y) ≤ qmax (qabs x) (qabs y) * eps)

/-- Modelled from the spec: the BigNumber variant of the near-equality
helper (`utils/bignumber/nearlyEqual`) is not part of the shown sources;
BigNumbers are modelled as exact rationals with the same relative-epsilon
test. -/
def bigNearlyEqual (x y eps : ℚ) : Bool :=
  decide (x = y) || decide (qabs (x - y) ≤ qmax (qabs x) (qabs y) * eps)

/-- The `boolean, boolean` rule of `larger`: JavaScript `x > y` on booleans. -/
def larger_boolean (x y : Bool) : Bool := x && !y

/-- The `number, number` rule of `larger`:
`x > y && !nearlyEqual(x, y, config().epsilon)`. -/
def larger_number (eps x y : ℚ) : Bool := decide (x > y) && !(nearlyEqual x y eps)

/-- The `BigNumber, BigNumber` rule of `larger`:
`x.gt(y) && !bigNearlyEqual(x, y, config().epsilon)`. -/
def larger_bignumber (eps x y : ℚ) : Bool := decide (x > y) && !(bigNearlyEqual x y eps)

/-- The three-way comparison of the Fraction collaborator, modelled on
exact rationals. -/
def fracCompare (x y : ℚ) : Int := if x < y then -1 else if y < x then 1 else 0

/-- The `Fraction, Fraction` rule of `larger`: `x.compare(y) === 1`. -/
def larger_fraction (x y : ℚ) : Bool := decide (fracCompare x y = 1)

/-- The `boolean, boolean` rule of `smaller`: JavaScript `x < y` on booleans. -/
def smaller_boolean (x y : Bool) : Bool := !x && y

/-- The `number, number` rule of `smaller`:
`x < y && !nearlyEqual(x, y, config().epsilon)`. -/
def smaller_number (eps x y : ℚ) : Bool := decide (x < y) && !(nearlyEqual x y eps)

/-- The `BigNumber, BigNumber` rule of `smaller`:
`x.lt(y) && !bigNearlyEqual(x, y, config().epsilon)`. -/
def smaller_bignumber (eps x y : ℚ) : Bool := decide (x < y) && !(bigNearlyEqual x y eps)

/-- The `Fraction, Fraction` rule of `smaller`: `x.compare(y) === -1`. -/
def smaller_fraction (x y : ℚ) : Bool := decide (fracCompare x y = -1)

/-- Modelled from the spec: plain nested-sequence values (JavaScript `Array`
operands and the `data` attribute of a DenseMatrix); the matrix containers
are not part of the shown sources. -/
inductive NArr (α : Type) where
  | leaf : α → NArr α
  | node : List (NArr α) → NArr α

/-- Shape of a nested sequence: nesting depth and per-level lengths, read
off the first element at each level. -/
def NArr.shapeOf : NArr α → List Nat
  | .leaf _ => []
  | .node [] => [0]
  | .node (x :: xs) => (xs.length + 1) :: x.shapeOf

mutual

/-- Element-wise combination of two nested sequences of identical shape. -/
def narrZip (f : α → α → β) : NArr α → NArr α → NArr β
  | .leaf a, .leaf b => .leaf (f a b)
  | .node xs, .node ys => .node (narrZipAux f xs ys)
  | .leaf _, .node _ => .node []
  | .node _, .leaf _ => .node []

/-- Level-wise worker for `narrZip`. -/
def narrZipAux (f : α → α → β) : List (NArr α) → List (NArr α) → List (NArr β)
  | [], _ => []
  | _ :: _, [] => []
  | x :: xs, y :: ys => narrZip f x y :: narrZipAux f xs ys

end

/-- Modelled from the spec: the DenseMatrix container (not part of the shown
sources) — a `shape` (ordered sequence of dimensions) and nested `data`
matching the shape. -/
structure DenseMatrix (α : Type) where
  shape : List Nat
  data : NArr α

/-- Modelled from the spec: `toNestedSequence(Dense) -> Array`, the
`valueOf` conversion used by the `Array, Array` rule. -/
def DenseMatrix.valueOf (D : DenseMatrix α) : NArr α := D.data

/-- Modelled from the spec: `fromNestedSequence(Array) -> Dense`, the
`matrix` constructor used by the `Array, Array` rule. -/
def matrix (x : NArr α) : DenseMatrix α := ⟨x.shapeOf, x⟩

/-- Element access in a two-dimensional dense data block, with a default
for coordinates outside the block. -/
def denseGet2 (zero : α) (n : NArr α) (i j : Nat) : α :=
  match n with
  | .node rs =>
    match rs.getD i (.node []) with
    | .node cs =>
      match cs.getD j (.node []) with
      | .leaf v => v
      | .node _ => zero
    | .leaf _ => zero
  | .leaf _ => zero

/-- Modelled from the spec: the error surface of the combinator core; the
claims only exercise the DimensionMismatch error, which carries the two
operand shapes. -/
inductive CombErr where
  | DimensionMismatch : List Nat → List Nat → CombErr

/-- Whether a combinator call failed with a DimensionMismatch error. -/
def raisesDimensionMismatch : Except CombErr γ → Bool
  | .error (.DimensionMismatch _ _) => true
  | .ok _ => false

/-- Observation of a dense boolean combinator result at coordinate (0,0);
used to separate concrete outcomes. -/
def obsBool (e : Except CombErr (DenseMatrix Bool)) : Bool :=
  match e with
  | .ok D => denseGet2 false D.data 0 0
  | .error _ => false

/-- Modelled from the spec: the SparseMatrix container (not part of the
shown sources).  The column-major storage is represented per column: entry
`(i, v)` of column `j` stands for an explicit value `v` at row `i`.  The
spec's `values`, `rowIndex` and `columnPointer` sequences are recovered
from this representation by the accessors below. -/
structure SparseMatrix (α : Type) where
  rows : Nat
  cols : Nat
  cdata : List (List (Nat × α))

/-- Shape of a sparse matrix, `[rows, columns]`. -/
def SparseMatrix.shape (S : SparseMatrix α) : List Nat := [S.rows, S.cols]

/-- The spec's `values` sequence: the explicitly stored entries in
column-major order. -/
def SparseMatrix.values (S : SparseMatrix α) : List α :=
  (S.cdata.map (fun c => c.map Prod.snd)).flatten

/-- The spec's `rowIndex` sequence: the row of each stored value, in the
same order as `values`. -/
def SparseMatrix.rowIndex (S : SparseMatrix α) : List Nat :=
  (S.cdata.map (fun c => c.map Prod.fst)).flatten

/-- The spec's `columnPointer` sequence: position of each column's slice of
`values`, obtained as the running sum of the column sizes. -/
def SparseMatrix.columnPointer (S : SparseMatrix α) : List Nat :=
  S.cdata.scanl (fun acc c => acc + c.length) 0

/-- Count of explicitly stored entries. -/
def SparseMatrix.nnz (S : SparseMatrix α) : Nat := S.values.length

/-- Lookup of a row inside one stored column; absent rows yield the
canonical zero. -/
def colGet (zero : α) : List (Nat × α) → Nat → α
  | [], _ => zero
  | p :: rest, i => if p.1 = i then p.2 else colGet zero rest i

/-- Whether the row indices of a stored column are strictly increasing. -/
def keysSorted : List (Nat × α) → Bool
  | [] => true
  | [_] => true
  | p :: q :: rest => decide (p.1 < q.1) && keysSorted (q :: rest)

/-- Well-formedness of one stored column: sorted row indices, rows in
bounds, and no stored canonical zero. -/
def colWfb [DecidableEq α] (zero : α) (rows : Nat) (c : List (Nat × α)) : Bool :=
  keysSorted c && c.all (fun p => decide (p.1 < rows) && decide (¬ p.2 = zero))

/-- Well-formedness of a sparse matrix: one stored column per matrix
column, each well formed. -/
def SparseMatrix.wfb [DecidableEq α] (zero : α) (S : SparseMatrix α) : Bool :=
  decide (S.cdata.length = S.cols) && S.cdata.all (fun c => colWfb zero S.rows c)

/-- Value of a sparse matrix at a coordinate: the stored entry if present,
the canonical zero otherwise. -/
def SparseMatrix.get (zero : α) (S : SparseMatrix α) (i j : Nat) : α :=
  colGet zero (S.cdata.getD j []) i

/-- Modelled from the spec: `toDense(Sparse) -> Dense` (not part of the
shown sources) — an exact, shape-preserving conversion materialising every
coordinate. -/
def SparseMatrix.toDense (zero : α) (S : SparseMatrix α) : DenseMatrix α :=
  ⟨[S.rows, S.cols],
   .node ((List.range S.rows).map (fun i =>
     .node ((List.range S.cols).map (fun j => .leaf (S.get zero i j)))))⟩

/-- Prepend a merge result entry, dropping it when it equals the canonical
zero of the result kind (explicit zeros are never stored). -/
def consNZ [DecidableEq β] (zf : β) (p : Nat × β) (l : List (Nat × β)) : List (Nat × β) :=
  if p.2 = zf then l else p :: l

/-- Modelled from the spec: the per-column merge-join of the sparse-sparse
combinator algorithm07 (not part of the shown sources).  Rows present in
both operands give `f a b`; rows present in only one give `f a zero` or
`f zero b`; rows absent from both are never visited; results equal to the
canonical zero of the result kind are dropped. -/
def mergeCol [DecidableEq β] (zero : α) (zf : β) (f : α → α → β) :
    List (Nat × α) → List (Nat × α) → List (Nat × β)
  | [], [] => []
  | [], q :: ys => consNZ zf (q.1, f zero q.2) (mergeCol zero zf f [] ys)
  | p :: xs, [] => consNZ zf (p.1, f p.2 zero) (mergeCol zero zf f xs [])
  | p :: xs, q :: ys =>
    if p.1 < q.1 then consNZ zf (p.1, f p.2 zero) (mergeCol zero zf f xs (q :: ys))
    else if q.1 < p.1 then consNZ zf (q.1, f zero q.2) (mergeCol zero zf f (p :: xs) ys)
    else consNZ zf (p.1, f p.2 q.2) (mergeCol zero zf f xs ys)
termination_by xs ys => xs.length + ys.length

/-- Modelled from the spec: algorithm07, the sparse-sparse combinator (not
part of the shown sources).  Shapes must match; each column of the fresh
Sparse output is the merge-join of the operands' columns. -/
def algorithm07 [DecidableEq β] (zero : α) (zf : β) (f : α → α → β)
    (x y : SparseMatrix α) : Except CombErr (SparseMatrix β) :=
  if x.shape = y.shape then
    .ok ⟨x.rows, x.cols, List.zipWith (mergeCol zero zf f) x.cdata y.cdata⟩
  else .error (.DimensionMismatch x.shape y.shape)

/-- Modelled from the spec: algorithm13, the dense-dense combinator (not
part of the shown sources).  Shapes must match; the result is the
element-wise combination over a fresh Dense container. -/
def algorithm13 (f : α → α → β) (x y : DenseMatrix α) : Except CombErr (DenseMatrix β) :=
  if x.shape = y.shape then .ok ⟨x.shape, narrZip f x.data y.data⟩
  else .error (.DimensionMismatch x.shape y.shape)

/-- Modelled from the spec: algorithm03, the sparse-dense combinator and
its mirror (not part of the shown sources).  Every coordinate of the dense
operand is visited, the sparse operand is looked up per coordinate, and
the flag selects which operand feeds which argument of `f`; the output is
Dense. -/
def algorithm03 (zero : α) (f : α → α → β) (inverse : Bool)
    (d : DenseMatrix α) (s : SparseMatrix α) : Except CombErr (DenseMatrix β) :=
  if d.shape = s.shape then
    .ok ⟨d.shape,
      .node ((List.range s.rows).map (fun i =>
        .node ((List.range s.cols).map (fun j =>
          .leaf (if inverse then f (s.get zero i j) (denseGet2 zero d.data i j)
                 else f (denseGet2 zero d.data i j) (s.get zero i j))))))⟩
  else .error (.DimensionMismatch d.shape s.shape)

/-- Result of the sparse-scalar combinator: the storage format depends on
the densification test. -/
inductive MatResult (β : Type) where
  | sparse : SparseMatrix β → MatResult β
  | dense : DenseMatrix β → MatResult β

/-- Modelled from the spec: algorithm12, the sparse-scalar combinator (not
part of the shown sources).  It first computes `testValue`, the operator
applied to the canonical zero and the scalar in the order given by the
flag.  If `testValue` is the canonical zero of the result kind the result
stays Sparse: only the explicit values are recomputed and results that
become zero are dropped.  Otherwise the result is a Dense matrix of the
same shape, every implicit coordinate holding `testValue` and the explicit
coordinates holding the recomputed values — realised here coordinate-wise,
which fills exactly those values. -/
def algorithm12 [DecidableEq β] (zero : α) (zf : β) (f : α → α → β)
    (s : SparseMatrix α) (c : α) (inverse : Bool) : MatResult β :=
  if (if inverse then f c zero else f zero c) = zf then
    .sparse ⟨s.rows, s.cols,
      s.cdata.map (fun col => col.filterMap (fun p =>
        if (if inverse then f c p.2 else f p.2 c) = zf then none
        else some (p.1, if inverse then f c p.2 else f p.2 c)))⟩
  else
    .dense ⟨[s.rows, s.cols],
      .node ((List.range s.rows).map (fun i =>
        .node ((List.range s.cols).map (fun j =>
          .leaf (if inverse then f c (s.get zero i j) else f (s.get zero i j) c)))))⟩

/-- The `SparseMatrix, SparseMatrix` rule of `larger`:
`algorithm07(x, y, larger)` with the number rule on the elements. -/
def larger_sparse_sparse (eps : ℚ) (x y : SparseMatrix ℚ) : Except CombErr (SparseMatrix Bool) :=
  algorithm07 0 false (larger_number eps) x y

/-- The `DenseMatrix, DenseMatrix` rule of `larger`: `algorithm13(x, y, larger)`. -/
def larger_dense_dense (eps : ℚ) (x y : DenseMatrix ℚ) : Except CombErr (DenseMatrix Bool) :=
  algorithm13 (larger_number eps) x y

/-- The `SparseMatrix, DenseMatrix` rule of `larger`:
`algorithm03(y, x, larger, true)`. -/
def larger_sparse_dense (eps : ℚ) (x : SparseMatrix ℚ) (y : DenseMatrix ℚ) :
    Except CombErr (DenseMatrix Bool) :=
  algorithm03 0 (larger_number eps) true y x

/-- The `DenseMatrix, SparseMatrix` rule of `larger`:
`algorithm03(x, y, larger, false)`. -/
def larger_dense_sparse (eps : ℚ) (x : DenseMatrix ℚ) (y : SparseMatrix ℚ) :
    Except CombErr (DenseMatrix Bool) :=
  algorithm03 0 (larger_number eps) false x y

/-- The `Array, Array` rule of `larger`:
`larger(matrix(x), matrix(y)).valueOf()`. -/
def larger_array_array (eps : ℚ) (x y : NArr ℚ) : Except CombErr (NArr Bool) :=
  Except.map DenseMatrix.valueOf (larger_dense_dense eps (matrix x) (matrix y))

/-- The `SparseMatrix, any` rule of `larger`: `algorithm12(x, y, larger, false)`. -/
def larger_sparse_any (eps : ℚ) (x : SparseMatrix ℚ) (y : ℚ) : MatResult Bool :=
  algorithm12 0 false (larger_number eps) x y false

/-- The `any, SparseMatrix` rule of `larger`: `algorithm12(y, x, larger, true)`. -/
def larger_any_sparse (eps : ℚ) (x : ℚ) (y : SparseMatrix ℚ) : MatResult Bool :=
  algorithm12 0 false (larger_number eps) y x true

/-- The `SparseMatrix, SparseMatrix` rule of `smaller`:
`algorithm07(x, y, smaller)`. -/
def smaller_sparse_sparse (eps : ℚ) (x y : SparseMatrix ℚ) : Except CombErr (SparseMatrix Bool) :=
  algorithm07 0 false (smaller_number eps) x y

/-- The `SparseMatrix, any` rule of `smaller`: `algorithm12(x, y, smaller, false)`. -/
def smaller_sparse_any (eps : ℚ) (x : SparseMatrix ℚ) (y : ℚ) : MatResult Bool :=
  algorithm12 0 false (smaller_number eps) x y false


theorem keysSorted_tail {p : Nat × α} {l : List (Nat × α)}
    (h : keysSorted (p :: l) = true) : keysSorted l = true := by
  cases l with
  | nil => rfl
  | cons q rest => simp [keysSorted] at h ; simp [keysSorted, h.2]

theorem keysSorted_head_lt {p : Nat × α} {l : List (Nat × α)}
    (h : keysSorted (p :: l) = true) : ∀ q ∈ l, p.1 < q.1 := by
  induction l generalizing p with
  | nil => intro q hq ; cases hq
  | cons q rest ih =>
    simp only [keysSorted, Bool.and_eq_true, decide_eq_true_eq] at h
    intro r hr
    rcases List.mem_cons.mp hr with hr | hr
    · exact hr ▸ h.1
    · exact Nat.lt_trans h.1 (ih h.2 r hr)


theorem keysSorted_cons (k : Nat) (v : α) {l : List (Nat × α)}
    (hlt : ∀ q ∈ l, k < q.1) (h : keysSorted l = true) :
    keysSorted ((k, v) :: l) = true := by
  cases l with
  | nil => rfl
  | cons q rest =>
    simp only [keysSorted, Bool.and_eq_true, decide_eq_true_eq]
    exact ⟨hlt q (List.mem_cons_self q rest), h⟩

theorem colGet_eq_zero (zero : α) {l : List (Nat × α)} {i : Nat}
    (h : ∀ p ∈ l, p.1 ≠ i) : colGet zero l i = zero := by
  induction l with
  | nil => rfl
  | cons p rest ih =>
    simp only [colGet]
    rw [if_neg (h p (List.mem_cons_self p rest))]
    exact ih (fun q hq => h q (List.mem_cons_of_mem p hq))

theorem consNZ_mem [DecidableEq β] (zf : β) (p : Nat × β) (l : List (Nat × β))
    (r : Nat × β) (hr : r ∈ consNZ zf p l) : (r = p ∧ p.2 ≠ zf) ∨ r ∈ l := by
  unfold consNZ at hr
  split at hr
  · exact Or.inr hr
  · rcases List.mem_cons.mp hr with h | h
    · exact Or.inl ⟨h, by assumption⟩
    · exact Or.inr h

theorem mergeCol_mem [DecidableEq β] (zero : α) (zf : β) (f : α → α → β) :
    ∀ (xs ys : List (Nat × α)) (r : Nat × β), r ∈ mergeCol zero zf f xs ys →
      (r.1 ∈ xs.map Prod.fst ∨ r.1 ∈ ys.map Prod.fst) ∧ r.2 ≠ zf := by
  intro xs ys
  induction xs, ys using mergeCol.induct zero zf f with
  | case1 =>
    intro r hr
    simp [mergeCol] at hr
  | case2 q ys ih =>
    intro r hr
    rw [mergeCol] at hr
    rcases consNZ_mem _ _ _ _ hr with ⟨he, hz⟩ | h
    · subst he ; simp ; exact hz
    · rcases ih r h with ⟨hm | hm, hz⟩
      · simp at hm
      · exact ⟨Or.inr (by simp ; exact Or.inr (by simpa using hm)), hz⟩
  | case3 p xs ih =>
    intro r hr
    rw [mergeCol] at hr
    rcases consNZ_mem _ _ _ _ hr with ⟨he, hz⟩ | h
    · subst he ; simp ; exact hz
    · rcases ih r h with ⟨hm | hm, hz⟩
      · exact ⟨Or.inl (by simp ; exact Or.inr (by simpa using hm)), hz⟩
      · simp at hm
  | case4 p xs q ys hlt ih =>
    intro r hr
    rw [mergeCol, if_pos hlt] at hr
    rcases consNZ_mem _ _ _ _ hr with ⟨he, hz⟩ | h
    · subst he ; simp ; exact hz
    · rcases ih r h with ⟨hm | hm, hz⟩
      · exact ⟨Or.inl (by simp ; exact Or.inr (by simpa using hm)), hz⟩
      · exact ⟨Or.inr (by simpa using hm), hz⟩
  | case5 p xs q ys hnlt hlt ih =>
    intro r hr
    rw [mergeCol, if_neg hnlt, if_pos hlt] at hr
    rcases consNZ_mem _ _ _ _ hr with ⟨he, hz⟩ | h
    · subst he ; simp ; exact hz
    · rcases ih r h with ⟨hm | hm, hz⟩
      · exact ⟨Or.inl (by simpa using hm), hz⟩
      · exact ⟨Or.inr (by simp ; exact Or.inr (by simpa using hm)), hz⟩
  | case6 p xs q ys hnlt hnlt2 ih =>
    intro r hr
    rw [mergeCol, if_neg hnlt, if_neg hnlt2] at hr
    rcases consNZ_mem _ _ _ _ hr with ⟨he, hz⟩ | h
    · subst he ; simp ; exact hz
    · rcases ih r h with ⟨hm | hm, hz⟩
      · exact ⟨Or.inl (by simp ; exact Or.inr (by simpa using hm)), hz⟩
      · exact ⟨Or.inr (by simp ; exact Or.inr (by simpa using hm)), hz⟩

theorem mergeCol_keys_gt [DecidableEq β] (zero : α) (zf : β) (f : α → α → β)
    {xs ys : List (Nat × α)} {k : Nat}
    (hx : ∀ p ∈ xs, k < p.1) (hy : ∀ q ∈ ys, k < q.1) :
    ∀ r ∈ mergeCol zero zf f xs ys, k < r.1 := by
  intro r hr
  rcases (mergeCol_mem zero zf f xs ys r hr).1 with hm | hm
  · rcases List.mem_map.mp hm with ⟨p, hp, he⟩
    exact he ▸ hx p hp
  · rcases List.mem_map.mp hm with ⟨q, hq, he⟩
    exact he ▸ hy q hq

theorem consNZ_sorted [DecidableEq β] (zf : β) (k : Nat) (v : β) {l : List (Nat × β)}
    (hlt : ∀ q ∈ l, k < q.1) (h : keysSorted l = true) :
    keysSorted (consNZ zf (k, v) l) = true := by
  unfold consNZ
  split
  · exact h
  · exact keysSorted_cons k v hlt h

theorem colGet_consNZ_self [DecidableEq β] (zf : β) (k : Nat) (v : β)
    {l : List (Nat × β)} (h : ∀ r ∈ l, r.1 ≠ k) :
    colGet zf (consNZ zf (k, v) l) k = v := by
  unfold consNZ
  split
  next hv => rw [colGet_eq_zero zf h] ; exact hv.symm
  next hv => simp [colGet]

theorem colGet_consNZ_ne [DecidableEq β] (zf : β) (k : Nat) (v : β)
    (l : List (Nat × β)) {i : Nat} (h : ¬ k = i) :
    colGet zf (consNZ zf (k, v) l) i = colGet zf l i := by
  unfold consNZ
  split
  · rfl
  · simp only [colGet]
    rw [if_neg h]

theorem mergeCol_sorted [DecidableEq β] (zero : α) (zf : β) (f : α → α → β) :
    ∀ (xs ys : List (Nat × α)), keysSorted xs = true → keysSorted ys = true →
      keysSorted (mergeCol zero zf f xs ys) = true := by
  intro xs ys
  induction xs, ys using mergeCol.induct zero zf f with
  | case1 =>
    intro _ _
    rw [mergeCol]
    rfl
  | case2 q ys ih =>
    intro hx hy
    rw [mergeCol]
    have hy2 := keysSorted_tail hy
    refine consNZ_sorted zf _ _ ?_ (ih rfl hy2)
    exact mergeCol_keys_gt zero zf f (by intro p hp ; cases hp) (keysSorted_head_lt hy)
  | case3 p xs ih =>
    intro hx hy
    rw [mergeCol]
    have hx2 := keysSorted_tail hx
    refine consNZ_sorted zf _ _ ?_ (ih hx2 rfl)
    exact mergeCol_keys_gt zero zf f (keysSorted_head_lt hx) (by intro q hq ; cases hq)
  | case4 p xs q ys hlt ih =>
    intro hx hy
    rw [mergeCol, if_pos hlt]
    have hx2 := keysSorted_tail hx
    refine consNZ_sorted zf _ _ ?_ (ih hx2 hy)
    refine mergeCol_keys_gt zero zf f (keysSorted_head_lt hx) ?_
    intro r hr
    rcases List.mem_cons.mp hr with h | h
    · exact h ▸ hlt
    · exact Nat.lt_trans hlt (keysSorted_head_lt hy r h)
  | case5 p xs q ys hnlt hlt ih =>
    intro hx hy
    rw [mergeCol, if_neg hnlt, if_pos hlt]
    have hy2 := keysSorted_tail hy
    refine consNZ_sorted zf _ _ ?_ (ih hx hy2)
    refine mergeCol_keys_gt zero zf f ?_ (keysSorted_head_lt hy)
    intro r hr
    rcases List.mem_cons.mp hr with h | h
    · exact h ▸ hlt
    · exact Nat.lt_trans hlt (keysSorted_head_lt hx r h)
  | case6 p xs q ys hnlt hnlt2 ih =>
    intro hx hy
    have hk : q.1 = p.1 := by omega
    rw [mergeCol, if_neg hnlt, if_neg hnlt2]
    have hx2 := keysSorted_tail hx
    have hy2 := keysSorted_tail hy
    refine consNZ_sorted zf _ _ ?_ (ih hx2 hy2)
    refine mergeCol_keys_gt zero zf f (keysSorted_head_lt hx) ?_
    intro r hr
    exact hk ▸ keysSorted_head_lt hy r hr

theorem mergeCol_colGet [DecidableEq β] (zero : α) (zf : β) (f : α → α → β)
    (hz : f zero zero = zf) :
    ∀ (xs ys : List (Nat × α)), keysSorted xs = true → keysSorted ys = true →
      ∀ i, colGet zf (mergeCol zero zf f xs ys) i =
        f (colGet zero xs i) (colGet zero ys i) := by
  intro xs ys
  induction xs, ys using mergeCol.induct zero zf f with
  | case1 =>
    intro _ _ i
    rw [mergeCol]
    simp [colGet, hz]
  | case2 q ys ih =>
    intro hx hy i
    rw [mergeCol]
    by_cases hi : q.1 = i
    · subst hi
      rw [colGet_consNZ_self]
      · simp [colGet]
      · intro r hr
        have := mergeCol_keys_gt zero zf f
          (by intro p hp ; cases hp) (keysSorted_head_lt hy) r hr
        omega
    · have hy2 := keysSorted_tail hy
      rw [colGet_consNZ_ne zf _ _ _ hi, ih rfl hy2 i]
      simp only [colGet]
      rw [if_neg hi]
  | case3 p xs ih =>
    intro hx hy i
    rw [mergeCol]
    by_cases hi : p.1 = i
    · subst hi
      rw [colGet_consNZ_self]
      · simp [colGet]
      · intro r hr
        have := mergeCol_keys_gt zero zf f
          (keysSorted_head_lt hx) (by intro q hq ; cases hq) r hr
        omega
    · have hx2 := keysSorted_tail hx
      rw [colGet_consNZ_ne zf _ _ _ hi, ih hx2 rfl i]
      simp only [colGet]
      rw [if_neg hi]
  | case4 p xs q ys hlt ih =>
    intro hx hy i
    have hys : ∀ r ∈ q :: ys, p.1 < r.1 := by
      intro r hr
      rcases List.mem_cons.mp hr with h | h
      · exact h ▸ hlt
      · exact Nat.lt_trans hlt (keysSorted_head_lt hy r h)
    rw [mergeCol, if_pos hlt]
    by_cases hi : p.1 = i
    · subst hi
      rw [colGet_consNZ_self]
      · have h1 : ¬ q.1 = p.1 := by omega
        have h2 : colGet zero ys p.1 = zero :=
          colGet_eq_zero zero (fun r hr => by have := keysSorted_head_lt hy r hr ; omega)
        simp [colGet, h1, h2]
      · intro r hr
        have := mergeCol_keys_gt zero zf f (keysSorted_head_lt hx) hys r hr
        omega
    · have hx2 := keysSorted_tail hx
      rw [colGet_consNZ_ne zf _ _ _ hi, ih hx2 hy i]
      simp only [colGet]
      rw [if_neg hi]
  | case5 p xs q ys hnlt hlt ih =>
    intro hx hy i
    have hxs : ∀ r ∈ p :: xs, q.1 < r.1 := by
      intro r hr
      rcases List.mem_cons.mp hr with h | h
      · exact h ▸ hlt
      · exact Nat.lt_trans hlt (keysSorted_head_lt hx r h)
    rw [mergeCol, if_neg hnlt, if_pos hlt]
    by_cases hi : q.1 = i
    · subst hi
      rw [colGet_consNZ_self]
      · have h1 : ¬ p.1 = q.1 := by omega
        have h2 : colGet zero xs q.1 = zero :=
          colGet_eq_zero zero (fun r hr => by
            have := hxs r (List.mem_cons_of_mem p hr) ; omega)
        simp [colGet, h1, h2]
      · intro r hr
        have := mergeCol_keys_gt zero zf f hxs (keysSorted_head_lt hy) r hr
        omega
    · have hy2 := keysSorted_tail hy
      rw [colGet_consNZ_ne zf _ _ _ hi, ih hx hy2 i]
      simp only [colGet]
      rw [if_neg hi]
  | case6 p xs q ys hnlt hnlt2 ih =>
    intro hx hy i
    have hk : q.1 = p.1 := by omega
    rw [mergeCol, if_neg hnlt, if_neg hnlt2]
    by_cases hi : p.1 = i
    · subst hi
      rw [colGet_consNZ_self]
      · simp [colGet, hk]
      · intro r hr
        have := mergeCol_keys_gt zero zf f (keysSorted_head_lt hx)
          (fun r hr => hk ▸ keysSorted_head_lt hy r hr) r hr
        omega
    · have hx2 := keysSorted_tail hx
      have hy2 := keysSorted_tail hy
      rw [colGet_consNZ_ne zf _ _ _ hi, ih hx2 hy2 i]
      simp only [colGet]
      rw [if_neg hi, if_neg (by omega : ¬ q.1 = i)]


theorem getD_mem {δ : Type} (l : List δ) (j : Nat) (d : δ) (h : j < l.length) :
    l.getD j d ∈ l := by
  rw [List.getD_eq_getElem?_getD, List.getElem?_eq_getElem h]
  exact List.getElem_mem h

theorem zipWith_getD {δ ε ζ : Type} (g : δ → ε → ζ) :
    ∀ (l1 : List δ) (l2 : List ε) (j : Nat), j < l1.length → j < l2.length →
      ∀ (c : δ) (d : ε) (e : ζ),
      (List.zipWith g l1 l2).getD j e = g (l1.getD j c) (l2.getD j d) := by
  intro l1
  induction l1 with
  | nil => intro l2 j h1 _ _ _ _ ; simp at h1
  | cons x xs ih =>
    intro l2 j h1 h2 c d e
    cases l2 with
    | nil => simp at h2
    | cons y ys =>
      cases j with
      | zero => simp
      | succ j =>
        simp only [List.zipWith_cons_cons, List.getD_cons_succ]
        exact ih ys j (by simpa using h1) (by simpa using h2) c d e

theorem narrZipAux_map {δ : Type} (f : α → α → β) (g1 g2 : δ → NArr α) (l : List δ) :
    narrZipAux f (l.map g1) (l.map g2) = l.map (fun x => narrZip f (g1 x) (g2 x)) := by
  induction l with
  | nil => rfl
  | cons x xs ih => simp [narrZipAux, ih]

theorem wfb_spec [DecidableEq α] {zero : α} {S : SparseMatrix α} (h : S.wfb zero = true) :
    S.cdata.length = S.cols ∧
      ∀ c ∈ S.cdata, keysSorted c = true ∧ ∀ p ∈ c, p.1 < S.rows ∧ ¬ p.2 = zero := by
  simp only [SparseMatrix.wfb, colWfb, Bool.and_eq_true, decide_eq_true_eq,
    List.all_eq_true] at h
  refine ⟨h.1, fun c hc => ⟨(h.2 c hc).1, fun p hp => (h.2 c hc).2 p hp⟩⟩

/-- Core refinement fact: on well-formed equal-shape operands and an
operator sending the pair of canonical zeros to the canonical result zero,
the sparse-sparse combinator refines the dense-dense combinator. -/
theorem algorithm07_toDense [DecidableEq α] [DecidableEq β] (zero : α) (zf : β)
    (f : α → α → β) (A B : SparseMatrix α)
    (hA : A.wfb zero = true) (hB : B.wfb zero = true)
    (hsh : A.shape = B.shape) (hz : f zero zero = zf) :
    Except.map (SparseMatrix.toDense zf) (algorithm07 zero zf f A B)
      = algorithm13 f (A.toDense zero) (B.toDense zero) := by
  have hr : A.rows = B.rows := by
    simp [SparseMatrix.shape] at hsh
    exact hsh.1
  have hc : A.cols = B.cols := by
    simp [SparseMatrix.shape] at hsh
    exact hsh.2
  have hlenA : A.cdata.length = A.cols := (wfb_spec hA).1
  have hlenB : B.cdata.length = B.cols := (wfb_spec hB).1
  have hget : ∀ (i j : Nat), j < A.cols →
      SparseMatrix.get zf
        ⟨A.rows, A.cols, List.zipWith (mergeCol zero zf f) A.cdata B.cdata⟩ i j
        = f (A.get zero i j) (B.get zero i j) := by
    intro i j hj
    have hsA : keysSorted (A.cdata.getD j []) = true :=
      ((wfb_spec hA).2 _ (getD_mem A.cdata j [] (by omega))).1
    have hsB : keysSorted (B.cdata.getD j []) = true :=
      ((wfb_spec hB).2 _ (getD_mem B.cdata j [] (by rw [hlenB] ; omega))).1
    show colGet zf ((List.zipWith (mergeCol zero zf f) A.cdata B.cdata).getD j []) i
      = f (A.get zero i j) (B.get zero i j)
    rw [zipWith_getD (mergeCol zero zf f) A.cdata B.cdata j
      (by omega) (by rw [hlenB] ; omega) [] [] []]
    exact mergeCol_colGet zero zf f hz _ _ hsA hsB i
  rw [algorithm07, if_pos hsh, algorithm13,
    if_pos (by simp [SparseMatrix.toDense, hr, hc])]
  simp only [Except.map]
  congr 1
  rw [SparseMatrix.toDense, SparseMatrix.toDense, SparseMatrix.toDense]
  rw [show B.rows = A.rows from hr.symm, show B.cols = A.cols from hc.symm]
  simp only [narrZip, narrZipAux_map]
  congr 1
  refine congrArg NArr.node (List.map_congr_left ?_)
  intro i _
  refine congrArg NArr.node (List.map_congr_left ?_)
  intro j hj
  rw [hget i j (List.mem_range.mp hj)]

theorem mem_zipWith {δ ε ζ : Type} {g : δ → ε → ζ} :
    ∀ {l1 : List δ} {l2 : List ε} {c : ζ}, c ∈ List.zipWith g l1 l2 →
      ∃ a, a ∈ l1 ∧ ∃ b, b ∈ l2 ∧ c = g a b := by
  intro l1
  induction l1 with
  | nil => intro l2 c h ; simp at h
  | cons x xs ih =>
    intro l2 c h
    cases l2 with
    | nil => simp at h
    | cons y ys =>
      rcases List.mem_cons.mp (by simpa using h) with h2 | h2
      · exact ⟨x, List.mem_cons_self x xs, y, List.mem_cons_self y ys, h2⟩
      · rcases ih h2 with ⟨a, ha, b, hb, he⟩
        exact ⟨a, List.mem_cons_of_mem x ha, b, List.mem_cons_of_mem y hb, he⟩

theorem values_length (S : SparseMatrix α) :
    S.values.length = (S.cdata.map List.length).sum := by
  simp [SparseMatrix.values, List.length_flatten, List.map_map, Function.comp_def,
    List.length_map]

theorem rowIndex_length (S : SparseMatrix α) :
    S.rowIndex.length = (S.cdata.map List.length).sum := by
  simp [SparseMatrix.rowIndex, List.length_flatten, List.map_map, Function.comp_def,
    List.length_map]

theorem columnPointer_length (S : SparseMatrix α) :
    S.columnPointer.length = S.cdata.length + 1 := by
  simp [SparseMatrix.columnPointer, List.length_scanl]

/-- C2: for every well-formed sparse operand and scalar, the sparse-scalar
combinator algorithm12 returns a Sparse result with `nnz` at most the
operand's `nnz` exactly when the operator applied to the canonical zero and
the scalar (in the order given by the flag) is the canonical zero of the
result kind; otherwise it returns a Dense result of the same shape. -/
theorem C2_scalar_sparsity (f : ℚ → ℚ → Bool) (S : SparseMatrix ℚ) (c : ℚ) (inv : Bool) :
    match algorithm12 0 false f S c inv with
    | .sparse T =>
        (if inv then f c 0 else f 0 c) = false ∧ T.nnz ≤ S.nnz ∧ T.shape = S.shape
    | .dense D =>
        ¬ (if inv then f c 0 else f 0 c) = false ∧ D.shape = S.shape := by
  rw [algorithm12]
  by_cases h : (if inv then f c 0 else f 0 c) = false
  · rw [if_pos h]
    refine ⟨h, ?_, rfl⟩
    rw [SparseMatrix.nnz, SparseMatrix.nnz, values_length, values_length]
    show ((S.cdata.map _).map List.length).sum ≤ (S.cdata.map List.length).sum
    rw [List.map_map]
    refine List.sum_le_sum ?_
    intro x _
    exact List.length_filterMap_le _ _
  · rw [if_neg h]
    exact ⟨h, rfl⟩

/-- C3: for every two well-formed SparseMatrix operands of identical shape,
the sparse-sparse combinator algorithm07 invoked by larger and smaller
returns a Sparse matrix with freshly built, well-formed `values`,
`rowIndex` and `columnPointer` sequences of consistent lengths. -/
theorem C3_sparse_output (f : ℚ → ℚ → Bool) (A B : SparseMatrix ℚ)
    (hA : A.wfb 0 = true) (hB : B.wfb 0 = true) (hsh : A.shape = B.shape) :
    ∃ T : SparseMatrix Bool, algorithm07 0 false f A B = .ok T ∧
      T.shape = A.shape ∧ T.wfb false = true ∧
      T.rowIndex.length = T.values.length ∧
      T.columnPointer.length = T.cols + 1 := by
  have hr : A.rows = B.rows := by
    simp [SparseMatrix.shape] at hsh
    exact hsh.1
  have hlenA : A.cdata.length = A.cols := (wfb_spec hA).1
  have hlenB : B.cdata.length = B.cols := (wfb_spec hB).1
  have hc : A.cols = B.cols := by
    simp [SparseMatrix.shape] at hsh
    exact hsh.2
  refine ⟨⟨A.rows, A.cols, List.zipWith (mergeCol 0 false f) A.cdata B.cdata⟩,
    by rw [algorithm07, if_pos hsh], rfl, ?_, ?_, ?_⟩
  · simp only [SparseMatrix.wfb, colWfb, Bool.and_eq_true, decide_eq_true_eq,
      List.all_eq_true]
    refine ⟨?_, ?_⟩
    · show (List.zipWith _ _ _).length = A.cols
      rw [List.length_zipWith]
      omega
    · intro col hcol
      rcases mem_zipWith hcol with ⟨a, ha, b, hb, he⟩
      subst he
      have hsa := (wfb_spec hA).2 a ha
      have hsb := (wfb_spec hB).2 b hb
      refine ⟨mergeCol_sorted 0 false f a b hsa.1 hsb.1, ?_⟩
      intro p hp
      have hm := mergeCol_mem 0 false f a b p hp
      refine ⟨?_, hm.2⟩
      rcases hm.1 with hk | hk
      · rcases List.mem_map.mp hk with ⟨q, hq, he2⟩
        exact he2 ▸ (hsa.2 q hq).1
      · rcases List.mem_map.mp hk with ⟨q, hq, he2⟩
        have := (hsb.2 q hq).1
        omega
  · rw [rowIndex_length, values_length]
  · rw [columnPointer_length]
    show (List.zipWith _ _ _).length + 1 = A.cols + 1
    rw [List.length_zipWith]
    omega

/-- Witness for C3 on concrete well-formed 2 by 2 sparse operands with the
larger number rule at epsilon 1e-9. -/
theorem C3_witness :
    (⟨2, 2, [[], [(1, 5)]]⟩ : SparseMatrix ℚ).wfb 0 = true ∧
    (⟨2, 2, [[(0, 3)], []]⟩ : SparseMatrix ℚ).wfb 0 = true ∧
    ∃ T : SparseMatrix Bool,
      algorithm07 0 false (larger_number (1/1000000000))
          (⟨2, 2, [[], [(1, 5)]]⟩ : SparseMatrix ℚ) ⟨2, 2, [[(0, 3)], []]⟩ = .ok T ∧
      T.shape = (⟨2, 2, [[], [(1, 5)]]⟩ : SparseMatrix ℚ).shape ∧ T.wfb false = true ∧
      T.rowIndex.length = T.values.length ∧
      T.columnPointer.length = T.cols + 1 :=
  ⟨by decide, by decide,
    C3_sparse_output (larger_number (1/1000000000))
      ⟨2, 2, [[], [(1, 5)]]⟩ ⟨2, 2, [[(0, 3)], []]⟩ (by decide) (by decide) rfl⟩

/-- C6: every matrix-matrix combinator variant invoked by larger and
smaller (dense-dense algorithm13, sparse-sparse algorithm07, sparse-dense
algorithm03 together with its mirror flag) raises DimensionMismatch exactly
when the operand shapes differ, including differing rank; matching shapes
never raise it. -/
theorem C6_dimension_mismatch (f : ℚ → ℚ → Bool) (x y : DenseMatrix ℚ)
    (A B : SparseMatrix ℚ) (d : DenseMatrix ℚ) (S : SparseMatrix ℚ) (inv : Bool) :
    (raisesDimensionMismatch (algorithm13 f x y) = true ↔ ¬ x.shape = y.shape) ∧
    (raisesDimensionMismatch (algorithm07 0 false f A B) = true ↔ ¬ A.shape = B.shape) ∧
    (raisesDimensionMismatch (algorithm03 0 f inv d S) = true ↔ ¬ d.shape = S.shape) := by
  refine ⟨?_, ?_, ?_⟩
  · rw [algorithm13]
    by_cases h : x.shape = y.shape
    · rw [if_pos h]
      simp [raisesDimensionMismatch, h]
    · rw [if_neg h]
      simp [raisesDimensionMismatch, h]
  · rw [algorithm07]
    by_cases h : A.shape = B.shape
    · rw [if_pos h]
      simp [raisesDimensionMismatch, h]
    · rw [if_neg h]
      simp [raisesDimensionMismatch, h]
  · rw [algorithm03]
    by_cases h : d.shape = S.shape
    · rw [if_pos h]
      simp [raisesDimensionMismatch, h]
    · rw [if_neg h]
      simp [raisesDimensionMismatch, h]

/-- C7: whenever a combinator invoked via larger or smaller returns a
SparseMatrix, its `values` sequence contains no entry equal to the
canonical zero of the result kind (`false` for these boolean comparison
results): zero results are dropped, never stored. -/
theorem C7_no_stored_zero (f : ℚ → ℚ → Bool) (A B S : SparseMatrix ℚ) (c : ℚ)
    (inv : Bool) :
    (match algorithm07 0 false f A B with
     | .ok T => ¬ false ∈ T.values
     | .error _ => True) ∧
    (match algorithm12 0 false f S c inv with
     | .sparse T => ¬ false ∈ T.values
     | .dense _ => True) := by
  constructor
  · rw [algorithm07]
    by_cases hsh : A.shape = B.shape
    · rw [if_pos hsh]
      show ¬ false ∈ SparseMatrix.values _
      intro hmem
      rw [SparseMatrix.values] at hmem
      rcases List.mem_flatten.mp hmem with ⟨l, hl, hfl⟩
      rcases List.mem_map.mp hl with ⟨col, hcol, he⟩
      subst he
      rcases List.mem_map.mp hfl with ⟨p, hp, hpf⟩
      rcases mem_zipWith hcol with ⟨a, ha, b, hb, he2⟩
      subst he2
      exact (mergeCol_mem 0 false f a b p hp).2 hpf
    · rw [if_neg hsh]
      trivial
  · rw [algorithm12]
    by_cases ht : (if inv then f c 0 else f 0 c) = false
    · rw [if_pos ht]
      show ¬ false ∈ SparseMatrix.values _
      intro hmem
      rw [SparseMatrix.values] at hmem
      rcases List.mem_flatten.mp hmem with ⟨l, hl, hfl⟩
      rcases List.mem_map.mp hl with ⟨col, hcol, he⟩
      subst he
      rcases List.mem_map.mp hfl with ⟨p, hp, hpf⟩
      rcases List.mem_map.mp hcol with ⟨col0, _, he2⟩
      subst he2
      rcases List.mem_filterMap.mp hp with ⟨q, _, hq2⟩
      by_cases hw : (if inv then f c q.2 else f q.2 c) = false
      · rw [if_pos hw] at hq2
        cases hq2
      · rw [if_neg hw] at hq2
        cases hq2
        exact hw hpf
    · rw [if_neg ht]
      trivial

theorem qabs_eq_abs (x : ℚ) : qabs x = |x| := by
  unfold qabs
  split
  · rw [abs_of_neg]
    assumption
  · rw [abs_of_nonneg]
    exact le_of_not_lt (by assumption)

theorem qmax_eq_max (x y : ℚ) : qmax x y = max x y := by
  unfold qmax
  split
  · exact (max_eq_right (by assumption)).symm
  · exact (max_eq_left (le_of_not_le (by assumption))).symm

theorem nearlyEqual_comm (x y eps : ℚ) : nearlyEqual x y eps = nearlyEqual y x eps := by
  unfold nearlyEqual
  rw [decide_eq_decide.mpr eq_comm,
    show qabs (x - y) = qabs (y - x) by
      rw [qabs_eq_abs, qabs_eq_abs, abs_sub_comm],
    show qmax (qabs x) (qabs y) = qmax (qabs y) (qabs x) by
      rw [qmax_eq_max, qmax_eq_max, max_comm]]

theorem bigNearlyEqual_comm (x y eps : ℚ) :
    bigNearlyEqual x y eps = bigNearlyEqual y x eps := by
  unfold bigNearlyEqual
  rw [decide_eq_decide.mpr eq_comm,
    show qabs (x - y) = qabs (y - x) by
      rw [qabs_eq_abs, qabs_eq_abs, abs_sub_comm],
    show qmax (qabs x) (qabs y) = qmax (qabs y) (qabs x) by
      rw [qmax_eq_max, qmax_eq_max, max_comm]]

theorem fracCompare_swap (x y : ℚ) : fracCompare x y = -1 ↔ fracCompare y x = 1 := by
  unfold fracCompare
  rcases lt_trichotomy x y with h | h | h
  · rw [if_pos h, if_neg (lt_asymm h), if_pos h]
    simp
  · subst h
    rw [if_neg (lt_irrefl x), if_neg (lt_irrefl x)]
    simp
  · rw [if_neg (lt_asymm h), if_pos h, if_neg (lt_asymm h), if_pos h]
    simp

/-- C4: for every pair of numbers, `larger` returns true exactly when the
first is strictly greater than the second and the two are not nearly equal
within the configured relative epsilon (the spec's scenarios fix
epsilon = 1e-9; the statement holds for every epsilon). -/
theorem C4_number_rule (eps x y : ℚ) :
    larger_number eps x y = true ↔ (x > y ∧ nearlyEqual x y eps = false) := by
  simp only [larger_number, Bool.and_eq_true, decide_eq_true_eq, Bool.not_eq_true']

/-- C10: for operands of the same scalar kind among boolean, number,
BigNumber and Fraction, `smaller` returns exactly the same result as
`larger` with the arguments swapped; the near-equality tests used by the
number and BigNumber rules are symmetric. -/
theorem C10_mirror (xb yb : Bool) (eps x y xg yg xf yf : ℚ) :
    smaller_boolean xb yb = larger_boolean yb xb ∧
    smaller_number eps x y = larger_number eps y x ∧
    smaller_bignumber eps xg yg = larger_bignumber eps yg xg ∧
    smaller_fraction xf yf = larger_fraction yf xf := by
  refine ⟨by cases xb <;> cases yb <;> rfl, ?_, ?_, ?_⟩
  · unfold smaller_number larger_number
    rw [nearlyEqual_comm x y eps]
  · unfold smaller_bignumber larger_bignumber
    rw [bigNearlyEqual_comm xg yg eps]
  · unfold smaller_fraction larger_fraction
    exact decide_eq_decide.mpr (fracCompare_swap xf yf)

/-- C8: for two plain nested arrays of equal shape, the `Array, Array`
rule of larger equals converting both operands with `matrix`, applying the
dense-dense rule, and converting back with `valueOf`; the result is the
plain nested array of element-wise comparisons. -/
theorem C8_array_dense_equiv (eps : ℚ) (x y : NArr ℚ) (hsh : x.shapeOf = y.shapeOf) :
    larger_array_array eps x y
        = Except.map DenseMatrix.valueOf
            (larger_dense_dense eps (matrix x) (matrix y)) ∧
    larger_array_array eps x y = .ok (narrZip (larger_number eps) x y) := by
  refine ⟨rfl, ?_⟩
  rw [larger_array_array, larger_dense_dense, algorithm13,
    if_pos (show (matrix x).shape = (matrix y).shape from hsh)]
  rfl

/-- Witness for C8 at concrete one-element arrays. -/
theorem C8_witness :
    (NArr.node [NArr.leaf (1:ℚ)]).shapeOf = (NArr.node [NArr.leaf (2:ℚ)]).shapeOf ∧
    (larger_array_array 1 (.node [.leaf 1]) (.node [.leaf 2])
        = Except.map DenseMatrix.valueOf
            (larger_dense_dense 1 (matrix (.node [.leaf 1])) (matrix (.node [.leaf 2]))) ∧
      larger_array_array 1 (.node [.leaf 1]) (.node [.leaf 2])
        = .ok (narrZip (larger_number 1) (.node [.leaf 1]) (.node [.leaf 2]))) :=
  ⟨rfl, C8_array_dense_equiv 1 (.node [.leaf 1]) (.node [.leaf 2]) rfl⟩

/-- C1 (amended): for every two well-formed SparseMatrix operands of
identical shape and every total operator that maps the pair of canonical
zeros to the canonical zero of the result kind — as the larger and smaller
scalar rules do — converting the result of the sparse-sparse combinator
algorithm07 to dense yields exactly the dense-dense combinator algorithm13
applied to the densified operands. -/
theorem C1_equivalence_for_zero_preserving_ops (f : ℚ → ℚ → Bool)
    (A B : SparseMatrix ℚ) (hA : A.wfb 0 = true) (hB : B.wfb 0 = true)
    (hsh : A.shape = B.shape) (hz : f 0 0 = false) :
    Except.map (SparseMatrix.toDense false) (algorithm07 0 false f A B)
      = algorithm13 f (A.toDense 0) (B.toDense 0) :=
  algorithm07_toDense 0 false f A B hA hB hsh hz

/-- Counterexample to C1 as stated: for the total operator that is
constantly true, the sparse path and the dense path disagree already on
two empty well-formed 1 by 1 sparse operands of identical shape, because
the merge-join never visits the coordinate that is implicit zero in both
operands. -/
theorem C1_counterexample :
    (⟨1, 1, [[]]⟩ : SparseMatrix ℚ).wfb 0 = true ∧
    ¬ Except.map (SparseMatrix.toDense false)
        (algorithm07 0 false (fun _ _ => true) (⟨1, 1, [[]]⟩ : SparseMatrix ℚ) ⟨1, 1, [[]]⟩)
      = algorithm13 (fun _ _ => true)
          (SparseMatrix.toDense 0 (⟨1, 1, [[]]⟩ : SparseMatrix ℚ))
          (SparseMatrix.toDense 0 (⟨1, 1, [[]]⟩ : SparseMatrix ℚ)) := by
  refine ⟨by decide, ?_⟩
  have h07 : algorithm07 (0:ℚ) false (fun _ _ => true) ⟨1, 1, [[]]⟩ ⟨1, 1, [[]]⟩
      = .ok ⟨1, 1, [[]]⟩ := by
    rw [algorithm07, if_pos rfl]
    rw [show List.zipWith (mergeCol (0:ℚ) false (fun _ _ => true)) [[]] [[]]
        = [mergeCol (0:ℚ) false (fun _ _ => true) [] []] from rfl]
    rw [show mergeCol (0:ℚ) false (fun _ _ => true) [] [] = [] from by rw [mergeCol]]
  intro h
  rw [h07] at h
  exact absurd (congrArg obsBool h) (by decide)

/-- Witness for the amended C1 on concrete well-formed 2 by 2 sparse
operands with the larger number rule at epsilon 1e-9. -/
theorem C1_witness :
    (⟨2, 2, [[], [(1, 5)]]⟩ : SparseMatrix ℚ).wfb 0 = true ∧
    (⟨2, 2, [[(0, 3)], []]⟩ : SparseMatrix ℚ).wfb 0 = true ∧
    larger_number (1/1000000000) 0 0 = false ∧
    Except.map (SparseMatrix.toDense false)
        (algorithm07 0 false (larger_number (1/1000000000))
          (⟨2, 2, [[], [(1, 5)]]⟩ : SparseMatrix ℚ) ⟨2, 2, [[(0, 3)], []]⟩)
      = algorithm13 (larger_number (1/1000000000))
          (SparseMatrix.toDense 0 (⟨2, 2, [[], [(1, 5)]]⟩ : SparseMatrix ℚ))
          (SparseMatrix.toDense 0 (⟨2, 2, [[(0, 3)], []]⟩ : SparseMatrix ℚ)) :=
  ⟨by decide, by decide, by decide,
    C1_equivalence_for_zero_preserving_ops (larger_number (1/1000000000))
      ⟨2, 2, [[], [(1, 5)]]⟩ ⟨2, 2, [[(0, 3)], []]⟩
      (by decide) (by decide) rfl (by decide)⟩

/-- Counterexample to C5 as stated: applying larger element-wise to the
dense operands [2,3] and [5,4] pairs 2 with 5 and 3 with 4, giving
[false, false], not [false, true]. -/
theorem C5_counterexample :
    larger_array_array (1/1000000000) (.node [.leaf 2, .leaf 3]) (.node [.leaf 5, .leaf 4])
      = .ok (.node [.leaf false, .leaf false]) ∧
    ¬ larger_array_array (1/1000000000) (.node [.leaf 2, .leaf 3]) (.node [.leaf 5, .leaf 4])
      = .ok (.node [.leaf false, .leaf true]) := by
  have e25 : larger_number (1/1000000000) 2 5 = false := by
    unfold larger_number
    rw [decide_eq_false (by norm_num : ¬ (2:ℚ) > 5)]
    rfl
  have e34 : larger_number (1/1000000000) 3 4 = false := by
    unfold larger_number
    rw [decide_eq_false (by norm_num : ¬ (3:ℚ) > 4)]
    rfl
  have hres : larger_array_array (1/1000000000)
      (.node [.leaf 2, .leaf 3]) (.node [.leaf 5, .leaf 4])
      = .ok (.node [.leaf false, .leaf false]) := by
    rw [larger_array_array, larger_dense_dense, algorithm13,
      if_pos (show (matrix (NArr.node [NArr.leaf (2:ℚ), NArr.leaf 3])).shape
          = (matrix (NArr.node [NArr.leaf (5:ℚ), NArr.leaf 4])).shape from rfl)]
    simp only [Except.map, DenseMatrix.valueOf, matrix, narrZip, narrZipAux]
    rw [e25, e34]
  refine ⟨hres, ?_⟩
  rw [hres]
  intro h
  simp at h

/-- C5 (amended): the spec scenario pairs the jsdoc examples
larger(2,3) = false and larger(5,2+2) = true, so element-wise larger on
the dense operands [2,5] and [3,4] returns [false, true]. -/
theorem C5_amended_scenario :
    larger_array_array (1/1000000000) (.node [.leaf 2, .leaf 5]) (.node [.leaf 3, .leaf 4])
      = .ok (.node [.leaf false, .leaf true]) := by
  have e23 : larger_number (1/1000000000) 2 3 = false := by
    unfold larger_number
    rw [decide_eq_false (by norm_num : ¬ (2:ℚ) > 3)]
    rfl
  have e54 : larger_number (1/1000000000) 5 4 = true := by
    unfold larger_number nearlyEqual
    rw [decide_eq_true (by norm_num : (5:ℚ) > 4),
      decide_eq_false (by norm_num : ¬ (5:ℚ) = 4),
      decide_eq_false (by
        norm_num [qabs, qmax] :
          ¬ qabs ((5:ℚ) - 4) ≤ qmax (qabs 5) (qabs 4) * (1/1000000000))]
    rfl
  rw [larger_array_array, larger_dense_dense, algorithm13,
    if_pos (show (matrix (NArr.node [NArr.leaf (2:ℚ), NArr.leaf 5])).shape
        = (matrix (NArr.node [NArr.leaf (3:ℚ), NArr.leaf 4])).shape from rfl)]
  simp only [Except.map, DenseMatrix.valueOf, matrix, narrZip, narrZipAux]
  rw [e23, e54]
